import Mathlib

/-!
Verification development for the shared DSP primitives of a suite of audio
plugins.  The definitions below are shallow embeddings of the C++ sources:

* `AdaptiveNotchCPZ` from DoubleLoopCymbal `source/dsp/delay.hpp`
* `Delay`, `lagrange3Interp`, `SerialAllpass`, `ExpDecay`, `ExpDSREnvelope`
  from the same file
* `safeClip`, `FoldShaper` from FoldShaper `source/dsp/foldshaper.hpp`
* `ADSREnvelope`, `EasyLfo` from TestBedSynth `source/dsp/lfo.hpp`
* `Note`, `DSPCore` pieces from TestBedSynth `source/dsp/dspcore.cpp`
* `SVF`, `Highpass2` coefficient computations from GrowlSynth
  `source/dsp/filter.hpp` and DoubleLoopCymbal `source/dsp/delay.hpp`

`Sample` in the C++ templates is instantiated at `float`; the embedding uses
exact rationals (and reals where transcendental functions appear), with the
machine epsilon of `float` given explicitly as a rational constant.
-/

/-- Exact model of C++ `std::clamp(v, lo, hi)`: the standard specifies
`comp(v, lo) ? lo : comp(hi, v) ? hi : v`. -/
def stdClamp (v lo hi : ℚ) : ℚ :=
  if v < lo then lo else if hi < v then hi else v

/-- Exact model of C++ `std::lerp(a, b, t)` as used by the sources,
`a + t * (b - a)`. -/
def stdLerp (a b t : ℚ) : ℚ := a + t * (b - a)

/-- `std::numeric_limits<float>::epsilon()`, exactly `2 ^ (-23)`. -/
def floatEps : ℚ := 1 / 2 ^ 23

/-! ## AdaptiveNotchCPZ (DoubleLoopCymbal source/dsp/delay.hpp) -/

/-- State of `AdaptiveNotchCPZ`: the tracked coefficient `alpha` and the two
state variables `v1`, `v2`. -/
structure AdaptiveNotchCPZ where
  alpha : ℚ
  v1 : ℚ
  v2 : ℚ
deriving DecidableEq, Repr

namespace AdaptiveNotchCPZ

/-- `static constexpr Sample mu = Sample(2) / Sample(1024);` -/
def mu : ℚ := 2 / 1024

/-- `constexpr auto clip = Sample(1) / std::numeric_limits<Sample>::epsilon();` -/
def clip : ℚ := 1 / floatEps

/-- `reset()`: `alpha = -2; v1 = 0; v2 = 0;`. -/
def reset (_ : AdaptiveNotchCPZ) : AdaptiveNotchCPZ := ⟨-2, 0, 0⟩

/-- The clamped input `x0 = std::clamp(input, -clip, clip)`. -/
def x0val (input : ℚ) : ℚ := stdClamp input (-clip) clip

/-- The new state variable `v0 = x0 - a1 * v1 - a2 * v2` where
`a1 = narrowness * alpha` and `a2 = narrowness * narrowness`. -/
def v0val (s : AdaptiveNotchCPZ) (input narrowness : ℚ) : ℚ :=
  x0val input - narrowness * s.alpha * s.v1 - narrowness * narrowness * s.v2

/-- The two-pole recursive output `y0 = v0 + alpha * v1 + v2`. -/
def y0val (s : AdaptiveNotchCPZ) (input narrowness : ℚ) : ℚ :=
  s.v0val input narrowness + s.alpha * s.v1 + s.v2

/-- The error signal
`s0 = (1 - narrowness) * v0 - narrowness * (1 - narrowness) * v2`. -/
def s0val (s : AdaptiveNotchCPZ) (input narrowness : ℚ) : ℚ :=
  (1 - narrowness) * (s.v0val input narrowness)
    - narrowness * (1 - narrowness) * s.v2

/-- One call of `AdaptiveNotchCPZ::process(input, narrowness)`, returning the
updated state together with the output sample `y0 * gain`. -/
def process (s : AdaptiveNotchCPZ) (input narrowness : ℚ) :
    AdaptiveNotchCPZ × ℚ :=
  let a1 := narrowness * s.alpha
  let a2 := narrowness * narrowness
  let gain := if 0 ≤ s.alpha then (1 + a1 + a2) / (2 + s.alpha)
              else (1 - a1 + a2) / (2 - s.alpha)
  let v0 := s.v0val input narrowness
  let y0 := s.y0val input narrowness
  let s0 := s.s0val input narrowness
  let alphaNext := stdClamp (s.alpha - y0 * s0 * mu) (-2) 2
  (⟨alphaNext, v0, s.v1⟩, y0 * gain)

/-- Run `process` over a whole input sequence, keeping only the state.  Each
list element is a pair `(input, narrowness)`. -/
def processSeq (s : AdaptiveNotchCPZ) (l : List (ℚ × ℚ)) : AdaptiveNotchCPZ :=
  l.foldl (fun st p => (st.process p.1 p.2).1) s

end AdaptiveNotchCPZ

/-! ## Delay line (DoubleLoopCymbal source/dsp/delay.hpp) -/

/-- C++ conversion from a floating value to an integer type truncates toward
zero. -/
def cppTrunc (q : ℚ) : ℤ := if q < 0 then ⌈q⌉ else ⌊q⌋

/-- `lagrange3Interp(y0, y1, y2, y3, t)` from the source. -/
def lagrange3Interp (y0 y1 y2 y3 t : ℚ) : ℚ :=
  let u := 1 + t
  let d0 := y0 - y1
  let d1 := d0 - (y1 - y2)
  let d2 := d1 - ((y1 - y2) - (y2 - y3))
  y0 - u * (d0 + (1 - u) / 2 * (d1 + (2 - u) / 3 * d2))

/-- State of `Delay`: write pointer and circular sample buffer. -/
structure Delay where
  wptr : ℕ
  buf : List ℚ
deriving DecidableEq, Repr

namespace Delay

/-- `setup(maxTimeSamples)`: `buf.resize(std::max(size_t(4),
size_t(maxTimeSamples) + 4)); reset();`.  The resize followed by `reset`
leaves a zero-filled buffer of the stated capacity. -/
def setup (d : Delay) (maxTimeSamples : ℚ) : Delay :=
  { wptr := d.wptr,
    buf := List.replicate (max 4 ((cppTrunc maxTimeSamples).toNat + 4)) 0 }

/-- `reset()`: `std::fill(buf.begin(), buf.end(), Sample(0));`.  The write
pointer is left unchanged. -/
def reset (d : Delay) : Delay :=
  { d with buf := d.buf.map (fun _ => (0 : ℚ)) }

/-- Wrap a possibly negative read pointer once, as the source does with
`if (rptr < 0) rptr += size;`. -/
def wrapOnce (size r : ℤ) : ℤ := if r < 0 then r + size else r

/-- `Delay::process(input, timeInSamples)`.  Note that the source declares
`const int clamped = std::clamp(timeInSamples - Sample(1), Sample(1),
Sample(size - 4));`, so the clamped read position is truncated to an integer
and `rFraction = clamped - Sample(timeInt)` is always zero. -/
def process (d : Delay) (input timeInSamples : ℚ) : Delay × ℚ :=
  let size : ℤ := d.buf.length
  let clamped : ℤ := cppTrunc (stdClamp (timeInSamples - 1) 1 ((size : ℚ) - 4))
  let timeInt : ℤ := clamped
  let rFraction : ℚ := (clamped : ℚ) - (timeInt : ℚ)
  let wptrNext : ℕ := if d.wptr + 1 ≥ d.buf.length then 0 else d.wptr + 1
  let buf2 := d.buf.set wptrNext input
  let rptr0 := wrapOnce size (wptrNext - timeInt)
  let rptr1 := wrapOnce size (wptrNext - timeInt - 1)
  let rptr2 := wrapOnce size (wptrNext - timeInt - 2)
  let rptr3 := wrapOnce size (wptrNext - timeInt - 3)
  (⟨wptrNext, buf2⟩,
    lagrange3Interp (buf2.getD rptr0.toNat 0) (buf2.getD rptr1.toNat 0)
      (buf2.getD rptr2.toNat 0) (buf2.getD rptr3.toNat 0) rFraction)

/-- Specification-side variant of `process`, following the spec sentence: the
read position `timeInSamples - 1` is clamped to `[1, capacity - 4]` as a
fractional value, split into integer part `timeInt` and fractional offset
`rFraction`, and the output is the Lagrange cubic interpolation of the four
preceding samples at that fractional offset. -/
def processFractionalSpec (d : Delay) (input timeInSamples : ℚ) : Delay × ℚ :=
  let size : ℤ := d.buf.length
  let clamped : ℚ := stdClamp (timeInSamples - 1) 1 ((size : ℚ) - 4)
  let timeInt : ℤ := cppTrunc clamped
  let rFraction : ℚ := clamped - (timeInt : ℚ)
  let wptrNext : ℕ := if d.wptr + 1 ≥ d.buf.length then 0 else d.wptr + 1
  let buf2 := d.buf.set wptrNext input
  let rptr0 := wrapOnce size (wptrNext - timeInt)
  let rptr1 := wrapOnce size (wptrNext - timeInt - 1)
  let rptr2 := wrapOnce size (wptrNext - timeInt - 2)
  let rptr3 := wrapOnce size (wptrNext - timeInt - 3)
  (⟨wptrNext, buf2⟩,
    lagrange3Interp (buf2.getD rptr0.toNat 0) (buf2.getD rptr1.toNat 0)
      (buf2.getD rptr2.toNat 0) (buf2.getD rptr3.toNat 0) rFraction)

end Delay

/-! ## FoldShaper (FoldShaper source/dsp/foldshaper.hpp) -/

/-- A floating point value as seen by `std::isfinite`: either a finite value,
a NaN, or an infinity. -/
inductive FVal where
  | fin (q : ℚ)
  | nan
  | posInf
  | negInf
deriving DecidableEq, Repr

/-- `std::isfinite`. -/
def FVal.isfinite : FVal → Bool
  | .fin _ => true
  | _ => false

/-- The rational payload of a finite value (zero on the non-finite cases,
which are only inspected through `isfinite`). -/
def FVal.val : FVal → ℚ
  | .fin q => q
  | _ => 0

/-- `safeClip(input)`:
`std::isfinite(input) ? std::clamp(input, -1024, 1024) : 0`. -/
def safeClip (input : FVal) : FVal :=
  match input with
  | .fin q => .fin (stdClamp q (-1024) 1024)
  | _ => .fin 0

/-- `std::copysign(mag, sgn)` on exact rationals (no negative zero). -/
def cppCopysign (mag sgn : ℚ) : ℚ := if sgn < 0 then -|mag| else |mag|

/-- `Fir16FoldUpSample` constants from the polyphase FIR upsampler table
(TestBedSynth source/dsp; shared `common/dsp/multirate.hpp` table). -/
def Fir16FoldUpSample.bufferSize : ℕ := 32

/-- `constexpr static size_t intDelay = 15;` -/
def Fir16FoldUpSample.intDelay : ℕ := 15

/-- `constexpr static size_t upfold = 16;` -/
def Fir16FoldUpSample.upfold : ℕ := 16

/-- Parameters of `FoldShaper` used by `process` and `latency`.  The
oversampling members `upSampler`, `lowpass` and `halfbandIir` (declared in
`common/dsp/multirate.hpp`) carry no influence on either member function and
are omitted from the state. -/
structure FoldShaper where
  gain : ℚ
  multiply : ℚ
  hardclip : Bool
deriving DecidableEq, Repr

namespace FoldShaper

/-- `size_t latency() { return Fir16FoldUpSample<Sample>::intDelay; }` -/
def latency (_ : FoldShaper) : ℕ := Fir16FoldUpSample.intDelay

/-- `FoldShaper::process(x0)` on exact rationals. -/
def process (s : FoldShaper) (x : ℚ) : ℚ :=
  let x0 := if s.hardclip then stdClamp x (-1) 1 else x
  let absed := |x0 * s.gain|
  let flooredNat : ℕ := ⌊absed⌋.toNat
  let floored : ℚ := (flooredNat : ℚ)
  let mul := s.multiply ^ flooredNat
  let output :=
    if flooredNat % 2 = 1 then
      cppCopysign 1 x0 - cppCopysign (mul * (absed - floored)) x0
    else if 1 ≤ floored then
      cppCopysign (mul * (absed - floored) + (1 - mul / s.multiply)) x0
    else
      cppCopysign (mul * (absed - floored) + (1 - mul)) x0
  (safeClip (.fin output)).val

end FoldShaper

/-! ## SerialAllpass sum (DoubleLoopCymbal source/dsp/delay.hpp) -/

/-- The loop of `SerialAllpass::sum` computing the alternating-sign sum
`sumAlt`: starting from `sumAlt = 0`, `sign = 1`, each buffered tap output
adds `x * sign` and flips the sign. -/
def serialAllpassSumAlt (buffer : List ℚ) : ℚ :=
  (buffer.foldl (fun p x => (p.1 + x * p.2, -p.2)) ((0 : ℚ), (1 : ℚ))).1

/-- `SerialAllpass::sum(altSignMix)` on the per-stage tap buffer:
`std::lerp(sumDirect, sumAlt, altSignMix) / (2 * nAllpass)` where
`sumDirect = std::accumulate(buffer.begin(), buffer.end(), 0)`. -/
def serialAllpassSum (buffer : List ℚ) (altSignMix : ℚ) : ℚ :=
  let sumAlt := serialAllpassSumAlt buffer
  let sumDirect := buffer.foldl (· + ·) 0
  stdLerp sumDirect sumAlt altSignMix / (2 * (buffer.length : ℚ))

/-- The alternating-sign sum with signs `+, -, +, ...` starting positive,
written structurally: this is the quantity named in the spec. -/
def altSignSum : List ℚ → ℚ
  | [] => 0
  | x :: xs => x - altSignSum xs

/-! ## Exponential envelopes (DoubleLoopCymbal source/dsp/delay.hpp) -/

/-- State of `ExpDecay`: current value and per-sample decay coefficient. -/
structure ExpDecay where
  value : ℚ
  alpha : ℚ
deriving DecidableEq, Repr

/-- `ExpDecay::reset()`: `value = 0;` (`alpha` is kept). -/
def ExpDecay.reset (e : ExpDecay) : ExpDecay := { e with value := 0 }

/-- `ExpDecay::process()`: `return value *= alpha;`. -/
def ExpDecay.process (e : ExpDecay) : ExpDecay × ℚ :=
  ({ e with value := e.value * e.alpha }, e.value * e.alpha)

/-- `ExpDecay::setTime(decayTimeInSamples, sustain)` as a relation on the
resulting `alpha`, since `std::pow(eps, 1 / decayTimeInSamples)` is a
transcendental quantity: `alpha = sustain ? 1 : pow(eps, 1 / t)` with
`eps = std::numeric_limits<float>::epsilon()`. -/
def ExpDecay.setTimeAlpha (decayTimeInSamples : ℝ) (sustain : Bool)
    (alphaOut : ℝ) : Prop :=
  alphaOut = if sustain then 1
             else (floatEps : ℝ) ^ ((1 : ℝ) / decayTimeInSamples)

/-- The two states of `ExpDSREnvelope`. -/
inductive ExpDSRState where
  | decay
  | release
deriving DecidableEq, Repr

/-- State of `ExpDSREnvelope`. -/
structure ExpDSREnvelope where
  value : ℚ
  alphaD : ℚ
  alphaR : ℚ
  offset : ℚ
  state : ExpDSRState
deriving DecidableEq, Repr

namespace ExpDSREnvelope

/-- `reset()`: zeroes `value`, `alphaD`, `alphaR`, `offset` and returns the
state to `release`. -/
def reset (_ : ExpDSREnvelope) : ExpDSREnvelope := ⟨0, 0, 0, 0, .release⟩

/-- `trigger(sustainLevel)`. -/
def trigger (e : ExpDSREnvelope) (sustainLevel : ℚ) : ExpDSREnvelope :=
  { e with state := .decay, value := 1 - sustainLevel, offset := sustainLevel }

/-- `release()`. -/
def toRelease (e : ExpDSREnvelope) : ExpDSREnvelope :=
  { e with state := .release, offset := 0 }

/-- `process()`. -/
def process (e : ExpDSREnvelope) : ExpDSREnvelope × ℚ :=
  match e.state with
  | .decay =>
      let v := e.value * e.alphaD
      ({ e with value := v }, e.offset + v)
  | .release =>
      let v := e.value * e.alphaR
      ({ e with value := v }, v)

/-- `ExpDSREnvelope::setTime(decayTimeInSamples, releaseTimeInSamples)` as a
relation on the resulting coefficients:
`alphaD = pow(eps, 1 / decayTimeInSamples)` and
`alphaR = pow(eps, 1 / releaseTimeInSamples)`. -/
def setTimeAlphas (decayTimeInSamples releaseTimeInSamples : ℝ)
    (alphaD alphaR : ℝ) : Prop :=
  alphaD = (floatEps : ℝ) ^ ((1 : ℝ) / decayTimeInSamples) ∧
    alphaR = (floatEps : ℝ) ^ ((1 : ℝ) / releaseTimeInSamples)

end ExpDSREnvelope

/-! ## ADSR envelope and LFO (TestBedSynth source/dsp/lfo.hpp) -/

/-- Modelled from the spec: `DoubleEMAFilter` lives in
`common/dsp/smoother.hpp`, which is not among the given sources.  The spec
describes the smoothing primitives as exponential moving-average smoothers
whose two or fewer persistent state scalars are mutated once per processed
sample and exactly reset to zero on `reset()`.  Accordingly the filter holds
two cascaded EMA stages `v1`, `v2`; `processKp(input, kp)` advances each
stage by `v += kp * (target - v)` and returns the second stage, which
`value()` also reads. -/
structure DoubleEMAFilter where
  v1 : ℚ
  v2 : ℚ
deriving DecidableEq, Repr

/-- Modelled from the spec: `DoubleEMAFilter::reset()` zeroes both state
scalars. -/
def DoubleEMAFilter.reset (_ : DoubleEMAFilter) : DoubleEMAFilter := ⟨0, 0⟩

/-- Modelled from the spec: `DoubleEMAFilter::processKp(input, kp)`. -/
def DoubleEMAFilter.processKp (f : DoubleEMAFilter) (input kp : ℚ) :
    DoubleEMAFilter × ℚ :=
  let v1 := f.v1 + kp * (input - f.v1)
  let v2 := f.v2 + kp * (v1 - f.v2)
  (⟨v1, v2⟩, v2)

/-- The four states of `ADSREnvelope`. -/
inductive ADSRState where
  | attack
  | decay
  | release
  | terminated
deriving DecidableEq, Repr

/-- State of `ADSREnvelope`. -/
structure ADSREnvelope where
  state : ADSRState
  attackLength : ℕ
  counter : ℕ
  atkKp : ℚ
  decKp : ℚ
  relKp : ℚ
  smoother : DoubleEMAFilter
deriving DecidableEq, Repr

namespace ADSREnvelope

/-- `value()`: `smoother.v2`. -/
def value (e : ADSREnvelope) : ℚ := e.smoother.v2

/-- `isAttacking()`: `state == State::attack`. -/
def isAttacking (e : ADSREnvelope) : Bool :=
  match e.state with
  | .attack => true
  | _ => false

/-- `isTerminated()`: `state == State::terminated`. -/
def isTerminated (e : ADSREnvelope) : Bool :=
  match e.state with
  | .terminated => true
  | _ => false

/-- `reset()`: `state = State::terminated; smoother.reset();`.  The counters
and coefficients are kept. -/
def reset (e : ADSREnvelope) : ADSREnvelope :=
  { e with state := .terminated, smoother := e.smoother.reset }

/-- `noteOn(attackSamples)`. -/
def noteOn (e : ADSREnvelope) (attackSamples : ℕ) : ADSREnvelope :=
  { e with
    state := .attack
    attackLength := attackSamples
    counter := 0
    smoother := e.smoother.reset }

/-- `noteOff()`. -/
def noteOff (e : ADSREnvelope) : ADSREnvelope := { e with state := .release }

/-- `prepare(attackKp, decayKp, releaseKp)`. -/
def prepare (e : ADSREnvelope) (attackKp decayKp releaseKp : ℚ) :
    ADSREnvelope :=
  { e with atkKp := attackKp, decKp := decayKp, relKp := releaseKp }

/-- `process(sustainAmplitude)`.  In the attack state the ramp divides by
`Sample(attackLength / 2)` where `attackLength / 2` is a `size_t` division;
in the release state the envelope terminates (and the smoother resets) as
soon as `smoother.v2` has fallen to the machine epsilon of `float`. -/
def process (e : ADSREnvelope) (sustainAmplitude : ℚ) : ADSREnvelope × ℚ :=
  match e.state with
  | .attack =>
      let counter2 := e.counter + 1
      let state2 := if e.attackLength ≤ counter2 then ADSRState.decay
                    else ADSRState.attack
      let ramp : ℚ := (counter2 : ℚ) / ((e.attackLength / 2 : ℕ) : ℚ)
      let pr := e.smoother.processKp (min ramp 1) e.atkKp
      ({ e with state := state2, counter := counter2, smoother := pr.1 }, pr.2)
  | .decay =>
      let pr := e.smoother.processKp sustainAmplitude e.decKp
      ({ e with smoother := pr.1 }, pr.2)
  | .release =>
      if e.smoother.v2 ≤ floatEps then
        let pr := (e.smoother.reset).processKp 0 e.relKp
        ({ e with state := .terminated, smoother := pr.1 }, pr.2)
      else
        let pr := e.smoother.processKp 0 e.relKp
        ({ e with smoother := pr.1 }, pr.2)
  | .terminated => (e, 0)

end ADSREnvelope

/-- State of `EasyLfo`: table phase and output smoother. -/
structure EasyLfo where
  phase : ℚ
  smoother : DoubleEMAFilter
deriving DecidableEq, Repr

/-- `EasyLfo::reset()`. -/
def EasyLfo.reset (l : EasyLfo) : EasyLfo := ⟨0, l.smoother.reset⟩

/-- `EasyLfo::process(phaseDelta, smootherKp, table)`.  The wavetable is
modelled as a function from indices to samples together with its size. -/
def EasyLfo.process (l : EasyLfo) (phaseDelta smootherKp : ℚ)
    (table : ℕ → ℚ) (tableSize : ℕ) : EasyLfo × ℚ :=
  let phase1 := l.phase + phaseDelta
  let phase2 := phase1 - (⌊phase1⌋ : ℚ)
  let idx := (cppTrunc ((tableSize : ℚ) * phase2)).toNat
  let pr := l.smoother.processKp (table idx) smootherKp
  (⟨phase2, pr.1⟩, pr.2)

/-! ## Note and voice allocation (TestBedSynth source/dsp/dspcore.cpp) -/

/-- The three lifecycle states of a voice. -/
inductive NoteState where
  | active
  | release
  | rest
deriving DecidableEq, Repr

/-- The modulation entries written by `Note::process`:
`modulation[ModID::env0 + idx]` and `modulation[ModID::lfo0 + idx]` for the
two oscillators. -/
structure Modulation where
  env0 : ℚ
  env1 : ℚ
  lfo0 : ℚ
  lfo1 : ℚ
deriving DecidableEq, Repr

/-- The slice of `NoteProcessInfo` read by `Note::process`.  Smoother fields
are read through `getValue()` and therefore appear as plain values; the two
LFO wavetables are functions from indices together with their size. -/
structure NoteProcessInfo where
  gainSustainAmplitude : ℚ
  envelopeSustainAmplitude0 : ℚ
  envelopeSustainAmplitude1 : ℚ
  lfoPhaseDelta0 : ℚ
  lfoPhaseDelta1 : ℚ
  lfoTableSize : ℕ
  lfoWavetable0 : ℕ → ℚ
  lfoWavetable1 : ℕ → ℚ
  oscMix : ℚ

/-- An oscillator step function abstracting
`oscillator[idx].process(sampleRate, noteHz, feedback, modulation,
info.oscWavetable[idx].value, info.tableParam[idx])`: arguments are the
sample rate, `noteHz`, the feedback pair, the modulation values and the
oscillator index; the result is the output sample and the next oscillator
state.  The theorems below hold for every such step function, hence for
every oscillator implementation. -/
def OscStep (O : Type) : Type :=
  ℚ → ℚ → ℚ × ℚ → Modulation → Fin 2 → O → ℚ × O

/-- One voice of TestBedSynth (`nOscillator = 2`).  The oscillator state is
kept abstract in the type parameter `O`. -/
structure Note (O : Type) where
  state : NoteState
  id : ℤ
  velocity : ℚ
  pan : ℚ
  noteHz : ℚ
  modulation : Modulation
  feedback0 : ℚ
  feedback1 : ℚ
  gainEnvelope : ADSREnvelope
  envelope0 : ADSREnvelope
  envelope1 : ADSREnvelope
  lfo0 : EasyLfo
  lfo1 : EasyLfo
  oscillator0 : O
  oscillator1 : O
deriving DecidableEq

namespace Note

/-- `bool Note::isAttacking() { return gainEnvelope.isAttacking(); }` -/
def isAttacking {O : Type} (n : Note O) : Bool := n.gainEnvelope.isAttacking

/-- `float Note::getGain() { return velocity * gainEnvelope.value(); }` -/
def getGain {O : Type} (n : Note O) : ℚ := n.velocity * n.gainEnvelope.value

/-- `Note::rest()`: `state = NoteState::rest; id = -1;`. -/
def toRest {O : Type} (n : Note O) : Note O := { n with state := .rest, id := -1 }

/-- `Note::process(sampleRate, info)`. -/
def process {O : Type} (oscStep : OscStep O) (sampleRate : ℚ) (n : Note O)
    (info : NoteProcessInfo) : Note O × ℚ × ℚ :=
  if n.state = .rest then (n, 0, 0) else
  let geP := n.gainEnvelope.process info.gainSustainAmplitude
  let ge := geP.1
  if ge.isTerminated then ({ n with gainEnvelope := ge, state := .rest }, 0, 0)
  else
    let e0 := n.envelope0.process info.envelopeSustainAmplitude0
    let e1 := n.envelope1.process info.envelopeSustainAmplitude1
    let l0 := n.lfo0.process info.lfoPhaseDelta0 1 info.lfoWavetable0
      info.lfoTableSize
    let l1 := n.lfo1.process info.lfoPhaseDelta1 1 info.lfoWavetable1
      info.lfoTableSize
    let m : Modulation := ⟨e0.2, e1.2, l0.2, l1.2⟩
    let o0 := oscStep sampleRate n.noteHz (n.feedback0, n.feedback1) m 0
      n.oscillator0
    let o1 := oscStep sampleRate n.noteHz (o0.1, n.feedback1) m 1 n.oscillator1
    let sig := ge.smoother.v2 * n.velocity * stdLerp o0.1 o1.1 info.oscMix
    ({ n with
        gainEnvelope := ge
        envelope0 := e0.1
        envelope1 := e1.1
        lfo0 := l0.1
        lfo1 := l1.1
        modulation := m
        feedback0 := o0.1
        feedback1 := o1.1
        oscillator0 := o0.2
        oscillator1 := o1.2 },
      (1 - n.pan) * sig, n.pan * sig)

end Note

/-- The lambda handed to `std::sort` in `DSPCore::noteOn`:
`!notes[lhs].isAttacking() && (notes[lhs].getGain() < notes[rhs].getGain())`. -/
def stealCmp {O : Type} (lhs rhs : Note O) : Bool :=
  !lhs.isAttacking && decide (lhs.getGain < rhs.getGain)

/-- The first loop of `DSPCore::noteOn` with `nUnison = 1`: the index of the
first of the `nVoice` voices whose id matches `noteId` or whose state is
`rest`, if any. -/
def noteOnFreeIndex {O : Type} (notes : List (Note O)) (noteId : ℤ) :
    Option ℕ :=
  notes.findIdx? (fun nt => decide (nt.id = noteId) || decide (nt.state = .rest))

/-- The postcondition of `std::sort` on the index vector `voiceIndices`:
`order` is a permutation of `0, ..., nVoice - 1` that is sorted with respect
to the comparator in the sense of `std::is_sorted` (no element compares
`stealCmp`-less than its predecessor).  With `nUnison = 1` the stolen voice
is the head of `order`.  `stealCmp` is not a strict weak ordering, so more
than one order can satisfy this contract on the same pool. -/
def stealOrderOK {O : Type} (dflt : Note O) (notes : List (Note O))
    (order : List ℕ) : Prop :=
  order.Perm (List.range notes.length) ∧
    order.Chain'
      (fun a b => stealCmp (notes.getD b dflt) (notes.getD a dflt) = false)

/-! ## Concrete fixtures used by the closed theorems -/

/-- A zeroed smoother. -/
def blankEMA : DoubleEMAFilter := ⟨0, 0⟩

/-- A terminated envelope with unit coefficients. -/
def blankAdsr : ADSREnvelope := ⟨.terminated, 0, 0, 1, 1, 1, blankEMA⟩

/-- A resting voice. -/
def blankNote : Note Unit :=
  { state := .rest
    id := -1
    velocity := 0
    pan := 1/2
    noteHz := 440
    modulation := ⟨0, 0, 0, 0⟩
    feedback0 := 0
    feedback1 := 0
    gainEnvelope := blankAdsr
    envelope0 := blankAdsr
    envelope1 := blankAdsr
    lfo0 := ⟨0, blankEMA⟩
    lfo1 := ⟨0, blankEMA⟩
    oscillator0 := ()
    oscillator1 := () }

/-- An active voice in mid-attack with envelope gain `2`. -/
def attackingNote : Note Unit :=
  { blankNote with
    state := .active
    id := 1
    velocity := 1
    gainEnvelope := ⟨.attack, 100, 5, 1, 1, 1, ⟨2, 2⟩⟩ }

/-- An active, non-attacking (decay state) voice with envelope gain `5`. -/
def decayingNote : Note Unit :=
  { blankNote with
    state := .active
    id := 2
    velocity := 1
    gainEnvelope := ⟨.decay, 100, 100, 1, 1, 1, ⟨5, 5⟩⟩ }

/-- A two-voice pool with no resting voice: voice 0 is attacking and quiet,
voice 1 is non-attacking and louder. -/
def stealPool : List (Note Unit) := [attackingNote, decayingNote]

/-- A releasing voice whose gain envelope is about to terminate. -/
def fadingNote : Note Unit :=
  { blankNote with
    state := .release
    id := 3
    velocity := 1
    gainEnvelope := ⟨.release, 0, 0, 1, 1, 1, ⟨0, 0⟩⟩ }

/-- A `NoteProcessInfo` with all values zero. -/
def zeroInfo : NoteProcessInfo :=
  ⟨0, 0, 0, 0, 0, 0, fun _ => 0, fun _ => 0, 0⟩

/-- The trivial oscillator step on the unit state. -/
def unitOscStep : OscStep Unit := fun _ _ _ _ _ _ => (0, ())

/-- A delay line of capacity 8 (as produced by `setup(4)`) after eight
writes. -/
def delaySample : Delay := ⟨7, [10, 20, 40, 80, 160, 320, 640, 1280]⟩

/-! ## Filter coefficient computation (GrowlSynth source/dsp/filter.hpp and
DoubleLoopCymbal source/dsp/delay.hpp) -/

/-- `static constexpr Sample minCutoff = Sample(0.00001);` -/
def minCutoff : ℚ := 1 / 100000

/-- `static constexpr Sample nyquist = Sample(0.49998);` -/
def nyquist : ℚ := 49998 / 100000

/-- The clamp `std::clamp(normalizedFreq, minCutoff, nyquist)` applied by
`SVF::process` (and `SVFHighpass`, `LP1`, `HP1`, `AP1`) before the tangent. -/
def svfClampFreq (normalizedFreq : ℚ) : ℚ :=
  stdClamp normalizedFreq minCutoff nyquist

/-- The clamp `std::clamp(cutoffNormalized, Sample(0.00001),
Sample(0.49998))` applied by `Highpass2::process` before the tangent. -/
def hp2ClampFreq (cutoffNormalized : ℚ) : ℚ :=
  stdClamp cutoffNormalized (1 / 100000) (49998 / 100000)

/-- `Highpass2` constant `k = Sample(0.7071067811865476)`. -/
def highpass2K : ℚ := 0.7071067811865476

/-- The divisors evaluated by `SVF::process` while computing coefficients
and the section update: `Q` in `k = 1 / Q`, and the section denominator
`1 + g * (g + k)` with `g = tan(pi * clamp(normalizedFreq, minCutoff,
nyquist))`.  The proposition states that both divisors are nonzero. -/
def svfDivisorsNonzero (normalizedFreq Q : ℚ) : Prop :=
  (Q : ℝ) ≠ 0 ∧
    1 + Real.tan (Real.pi * (svfClampFreq normalizedFreq : ℝ))
        * (Real.tan (Real.pi * (svfClampFreq normalizedFreq : ℝ)) + 1 / (Q : ℝ))
      ≠ 0

/-- The amended safety statement for the filter coefficient computations at
a given frequency and Q input: the normalized frequency is clamped into
`[minCutoff, nyquist]`, the tangent argument lies strictly between `0` and
`pi / 2` (so `g` is finite and positive), the `SVF::process` divisors are
nonzero, and the `Highpass2::process` section denominator (with its constant
`k`) is nonzero. -/
def svfSafeAt (normalizedFreq Q : ℚ) : Prop :=
  minCutoff ≤ svfClampFreq normalizedFreq ∧
  svfClampFreq normalizedFreq ≤ nyquist ∧
  0 < Real.pi * (svfClampFreq normalizedFreq : ℝ) ∧
  Real.pi * (svfClampFreq normalizedFreq : ℝ) < Real.pi / 2 ∧
  0 < Real.tan (Real.pi * (svfClampFreq normalizedFreq : ℝ)) ∧
  svfDivisorsNonzero normalizedFreq Q ∧
  (0 < Real.tan (Real.pi * (hp2ClampFreq normalizedFreq : ℝ)) ∧
    1 + Real.tan (Real.pi * (hp2ClampFreq normalizedFreq : ℝ))
        * (Real.tan (Real.pi * (hp2ClampFreq normalizedFreq : ℝ))
            + (highpass2K : ℝ))
      ≠ 0)

/-! ## Helper lemmas -/

theorem stdClamp_le {v lo hi : ℚ} (h : lo ≤ hi) : stdClamp v lo hi ≤ hi := by
  unfold stdClamp
  split
  · exact h
  · split
    · exact le_refl hi
    · exact le_of_not_lt (by assumption)

theorem le_stdClamp {v lo hi : ℚ} (h : lo ≤ hi) : lo ≤ stdClamp v lo hi := by
  unfold stdClamp
  split
  · exact le_refl lo
  · split
    · exact h
    · exact le_of_not_lt (by assumption)

theorem adaptiveNotch_process_alpha_mem (s : AdaptiveNotchCPZ)
    (input narrowness : ℚ) :
    -2 ≤ (s.process input narrowness).1.alpha ∧
      (s.process input narrowness).1.alpha ≤ 2 := by
  unfold AdaptiveNotchCPZ.process
  refine ⟨le_stdClamp (by norm_num), stdClamp_le (by norm_num)⟩

theorem adaptiveNotch_processSeq_alpha_mem (l : List (ℚ × ℚ)) :
    ∀ s : AdaptiveNotchCPZ,
      -2 ≤ s.alpha → s.alpha ≤ 2 →
      -2 ≤ (AdaptiveNotchCPZ.processSeq s l).alpha ∧
        (AdaptiveNotchCPZ.processSeq s l).alpha ≤ 2 := by
  induction l with
  | nil => exact fun s h1 h2 => ⟨h1, h2⟩
  | cons p rest ih =>
      intro s h1 h2
      have hmem := adaptiveNotch_process_alpha_mem s p.1 p.2
      exact ih _ hmem.1 hmem.2

/-- C2: every `AdaptiveNotchCPZ::process` call updates the tracked coefficient
to exactly `clamp(alpha - mu * y0 * s0, -2, 2)` with `mu = 2 / 1024`, where
`y0` is the two-pole recursive output and `s0` the error signal; consequently,
starting from `reset()` (`alpha = -2`), `alpha` lies in `[-2, 2]` after every
call to `process`, for every sequence of inputs and narrowness values. -/
theorem adaptiveNotch_alpha_update_and_clamped :
    (∀ (s : AdaptiveNotchCPZ) (input narrowness : ℚ),
      (s.process input narrowness).1.alpha
        = stdClamp
            (s.alpha
              - AdaptiveNotchCPZ.mu * s.y0val input narrowness
                * s.s0val input narrowness) (-2) 2) ∧
    (AdaptiveNotchCPZ.mu = 2 / 1024) ∧
    ∀ (s0 : AdaptiveNotchCPZ) (l : List (ℚ × ℚ)),
      (s0.reset.alpha = -2) ∧
      (-2 ≤ (AdaptiveNotchCPZ.processSeq s0.reset l).alpha ∧
        (AdaptiveNotchCPZ.processSeq s0.reset l).alpha ≤ 2) := by
  refine ⟨?_, rfl, ?_⟩
  · intro s input narrowness
    show stdClamp
        (s.alpha - s.y0val input narrowness * s.s0val input narrowness
          * AdaptiveNotchCPZ.mu) (-2) 2 = _
    congr 1
    ring
  · intro s0 l
    exact ⟨rfl, adaptiveNotch_processSeq_alpha_mem l s0.reset
      (by norm_num [AdaptiveNotchCPZ.reset]) (by norm_num [AdaptiveNotchCPZ.reset])⟩

theorem serialAllpassSumAlt_loop (l : List ℚ) :
    ∀ s sign : ℚ,
      (l.foldl (fun p x => (p.1 + x * p.2, -p.2)) (s, sign)).1
        = s + sign * altSignSum l := by
  induction l with
  | nil => intro s sign; simp [altSignSum]
  | cons x xs ih =>
      intro s sign
      simp only [List.foldl_cons, altSignSum]
      rw [ih]
      ring

theorem foldl_add_eq_sum (l : List ℚ) :
    ∀ s : ℚ, l.foldl (· + ·) s = s + l.sum := by
  induction l with
  | nil => intro s; simp
  | cons x xs ih =>
      intro s
      simp only [List.foldl_cons, List.sum_cons]
      rw [ih]
      ring

/-- C5: for every tap buffer state and every `altSignMix`,
`SerialAllpass::sum(altSignMix)` returns
`lerp(S_direct, S_alt, altSignMix) / (2 * nAllpass)` where `S_direct` is the
plain sum of the buffered tap outputs and `S_alt` their alternating-sign sum
with signs `+, -, +, ...` starting positive; in particular `sum(0)` is the
straight sum and `sum(1)` the alternating-sign sum, each normalized by
`2 * nAllpass`. -/
theorem serialAllpass_sum_lerp_of_sums :
    ∀ (buffer : List ℚ) (altSignMix : ℚ),
      serialAllpassSum buffer altSignMix
        = stdLerp buffer.sum (altSignSum buffer) altSignMix
            / (2 * (buffer.length : ℚ)) ∧
      serialAllpassSum buffer 0
        = buffer.sum / (2 * (buffer.length : ℚ)) ∧
      serialAllpassSum buffer 1
        = altSignSum buffer / (2 * (buffer.length : ℚ)) := by
  intro buffer altSignMix
  have hAlt : serialAllpassSumAlt buffer = altSignSum buffer := by
    unfold serialAllpassSumAlt
    rw [serialAllpassSumAlt_loop]
    ring
  have hDir : buffer.foldl (· + ·) (0 : ℚ) = buffer.sum := by
    rw [foldl_add_eq_sum]
    ring
  unfold serialAllpassSum
  rw [hAlt, hDir]
  refine ⟨rfl, ?_, ?_⟩
  · unfold stdLerp
    ring
  · unfold stdLerp
    ring

theorem safeClip_val_mem (x : FVal) :
    -1024 ≤ (safeClip x).val ∧ (safeClip x).val ≤ 1024 := by
  cases x with
  | fin q => exact ⟨le_stdClamp (by norm_num), stdClamp_le (by norm_num)⟩
  | nan => exact ⟨by norm_num [safeClip, FVal.val], by norm_num [safeClip, FVal.val]⟩
  | posInf => exact ⟨by norm_num [safeClip, FVal.val], by norm_num [safeClip, FVal.val]⟩
  | negInf => exact ⟨by norm_num [safeClip, FVal.val], by norm_num [safeClip, FVal.val]⟩

/-- C4: for every input (NaN and infinities included), `safeClip` returns a
finite value in `[-1024, 1024]`: the clamp of the input when the input is
finite and `0` when it is not; consequently `FoldShaper::process` returns a
value in `[-1024, 1024]` for every input and every gain, multiply and
hardclip setting. -/
theorem safeClip_bounded_and_foldShaper_bounded :
    (∀ q : ℚ, safeClip (.fin q) = .fin (stdClamp q (-1024) 1024)) ∧
    (safeClip .nan = .fin 0 ∧ safeClip .posInf = .fin 0 ∧
      safeClip .negInf = .fin 0) ∧
    (∀ x : FVal, (safeClip x).isfinite = true ∧
      -1024 ≤ (safeClip x).val ∧ (safeClip x).val ≤ 1024) ∧
    ∀ (s : FoldShaper) (x : ℚ),
      -1024 ≤ s.process x ∧ s.process x ≤ 1024 := by
  refine ⟨fun q => rfl, ⟨rfl, rfl, rfl⟩, ?_, ?_⟩
  · intro x
    refine ⟨?_, safeClip_val_mem x⟩
    cases x <;> rfl
  · intro s x
    exact safeClip_val_mem _

/-- C6: `FoldShaper::latency()` returns exactly the integer group delay of
the polyphase FIR upsampler kernel, `Fir16FoldUpSample::intDelay = 15`,
independent of the gain, multiply and hardclip settings and of any
processing history. -/
theorem foldShaper_latency_eq_intDelay :
    ∀ s : FoldShaper,
      s.latency = Fir16FoldUpSample.intDelay ∧ s.latency = 15 :=
  fun _ => ⟨rfl, rfl⟩

/-- C3: evaluation of `Delay::process` at a half-sample read position.  The
source truncates the clamped read position to `int`, so the fractional
offset handed to the Lagrange interpolator is always zero: on a capacity-8
delay line (as produced by `setup(4)`) holding the samples of `delaySample`,
`process(0, 7/2)` returns `320`, the sample at the truncated integer offset,
while interpolating the four preceding samples at the clamped fractional
offset `1/2` as the spec states yields `225`. -/
theorem delay_process_drops_fraction_at_half_sample :
    (Delay.process delaySample 0 (7/2)).2 = 320 ∧
    (Delay.processFractionalSpec delaySample 0 (7/2)).2 = 225 ∧
    (Delay.setup ⟨0, []⟩ 4).buf = List.replicate 8 0 := by
  refine ⟨?_, ?_, ?_⟩
  · simp only [Delay.process, delaySample]
    norm_num [stdClamp, cppTrunc, Delay.wrapOnce, lagrange3Interp]
    rfl
  · simp only [Delay.processFractionalSpec, delaySample]
    norm_num [stdClamp, cppTrunc, Delay.wrapOnce, lagrange3Interp]
    have g3 : ([0, 20, 40, 80, 160, 320, 640, 1280] : List ℚ)[Int.toNat 3] = 80 := rfl
    have g4 : ([0, 20, 40, 80, 160, 320, 640, 1280] : List ℚ)[Int.toNat 4] = 160 := rfl
    have g5 : ([0, 20, 40, 80, 160, 320, 640, 1280] : List ℚ)[Int.toNat 5] = 320 := rfl
    have g6 : ([0, 20, 40, 80, 160, 320, 640, 1280] : List ℚ)[Int.toNat 6] = 640 := rfl
    rw [g3, g4, g5, g6]
    norm_num
  · norm_num [Delay.setup, cppTrunc]
    rfl

/-- C9: calling `reset()` twice in a row from any reachable state produces
exactly the same internal state as calling it once, for `Delay::reset`,
`AdaptiveNotchCPZ::reset`, `ExpDSREnvelope::reset` and
`ADSREnvelope::reset`. -/
theorem reset_idempotents :
    (∀ d : Delay, d.reset.reset = d.reset) ∧
    (∀ s : AdaptiveNotchCPZ, s.reset.reset = s.reset) ∧
    (∀ e : ExpDSREnvelope, e.reset.reset = e.reset) ∧
    (∀ e : ADSREnvelope, e.reset.reset = e.reset) := by
  refine ⟨?_, fun s => rfl, fun e => rfl, fun e => rfl⟩
  intro d
  simp only [Delay.reset, List.map_map]
  rfl

/-- C10: a voice in state `rest` is returned unchanged by `Note::process`
with output `(0, 0)`; and whenever the gain envelope reports
`isTerminated()` after its per-sample update, the voice state is set to
`rest` and `(0, 0)` is returned, for every oscillator implementation, sample
rate and parameter info.  A terminated voice therefore never contributes a
non-zero sample to the block output. -/
theorem note_process_rest_guard_and_termination :
    ∀ (O : Type) (oscStep : OscStep O) (sampleRate : ℚ) (n : Note O)
      (info : NoteProcessInfo),
      (n.state = NoteState.rest →
        Note.process oscStep sampleRate n info = (n, 0, 0)) ∧
      ((n.gainEnvelope.process info.gainSustainAmplitude).1.isTerminated = true →
        (Note.process oscStep sampleRate n info).1.state = NoteState.rest ∧
          (Note.process oscStep sampleRate n info).2 = (0, 0)) := by
  intro O oscStep sampleRate n info
  constructor
  · intro h
    simp [Note.process, h]
  · intro hterm
    by_cases h : n.state = NoteState.rest
    · simp [Note.process, h]
    · simp [Note.process, h, hterm]

/-- Witness for C10 at concrete voices: `blankNote` rests and is returned
unchanged with zero output; `fadingNote` is in release with its smoother at
zero, so its gain envelope terminates on the next update and `process` moves
the voice to `rest` with zero output. -/
theorem note_process_rest_guard_witness :
    (blankNote.state = NoteState.rest ∧
      Note.process unitOscStep 48000 blankNote zeroInfo = (blankNote, 0, 0)) ∧
    ((fadingNote.gainEnvelope.process
        zeroInfo.gainSustainAmplitude).1.isTerminated = true ∧
      (Note.process unitOscStep 48000 fadingNote zeroInfo).1.state
        = NoteState.rest ∧
      (Note.process unitOscStep 48000 fadingNote zeroInfo).2 = (0, 0)) := by
  have h1 := note_process_rest_guard_and_termination Unit unitOscStep 48000
    blankNote zeroInfo
  have h2 := note_process_rest_guard_and_termination Unit unitOscStep 48000
    fadingNote zeroInfo
  have hterm : (fadingNote.gainEnvelope.process
      zeroInfo.gainSustainAmplitude).1.isTerminated = true := by
    norm_num [fadingNote, blankNote, blankAdsr, blankEMA, zeroInfo,
      ADSREnvelope.process, ADSREnvelope.isTerminated, DoubleEMAFilter.processKp,
      DoubleEMAFilter.reset, floatEps]
  exact ⟨⟨rfl, h1.1 rfl⟩, ⟨hterm, h2.2 hterm⟩⟩

/-- C1: evaluation of the `DSPCore::noteOn` voice-stealing selection on a
two-voice pool with no resting voice, in which voice 0 is attacking with
envelope gain 2 and voice 1 is non-attacking (decay) with envelope gain 5.
The first selection loop finds no candidate, and the order `[0, 1]`
satisfies the `std::sort` postcondition for the comparator
`!lhs.isAttacking() && (lhs.getGain() < rhs.getGain())` (which is not a
strict weak ordering), so the head of the sorted order — the voice that is
stolen — can be the attacking voice 0 even though the non-attacking voice 1
exists. -/
theorem noteOn_steal_order_admits_attacking_voice :
    noteOnFreeIndex stealPool 7 = none ∧
    stealOrderOK blankNote stealPool [0, 1] ∧
    [0, 1].head? = some 0 ∧
    (stealPool.getD 0 blankNote).isAttacking = true ∧
    (stealPool.getD 1 blankNote).isAttacking = false ∧
    (stealPool.getD 1 blankNote).state = NoteState.active ∧
    (stealPool.getD 0 blankNote).getGain < (stealPool.getD 1 blankNote).getGain := by
  refine ⟨rfl, ⟨?_, ?_⟩, rfl, rfl, rfl, rfl, ?_⟩
  · show [0, 1].Perm (List.range stealPool.length)
    have h : List.range stealPool.length = [0, 1] := rfl
    rw [h]
  · simp only [List.chain'_cons, List.chain'_singleton, and_true]
    norm_num [stealCmp, Note.isAttacking, Note.getGain, ADSREnvelope.isAttacking,
      ADSREnvelope.value, stealPool, attackingNote, decayingNote, blankNote,
      blankAdsr, blankEMA]
  · norm_num [Note.getGain, ADSREnvelope.value, stealPool, attackingNote,
      decayingNote, blankNote, blankAdsr, blankEMA]

/-- C7, counterexample: at `Q = 0` the computation `k = 1 / Q` in
`SVF::process` divides by zero — `Q` is not clamped to a safe range, so the
divisors are not nonzero for every parameter input. -/
theorem svf_divisor_zero_at_q_zero : ¬ svfDivisorsNonzero (1/4) 0 := by
  intro h
  exact h.1 (by norm_num)

/-- C7, amended: the normalized frequency is clamped into
`[0.00001, 0.49998]` before the tangent in both `SVF::process` and
`Highpass2::process`, so the tangent argument lies strictly inside
`(0, pi / 2)` and `g` is positive; and for every `Q > 0` the divisors `Q`
and `1 + g * (g + k)` are nonzero in both filters.  `Q` itself is not
clamped, so `Q = 0` still divides by zero. -/
theorem svf_clamped_cutoff_safe_for_positive_q :
    ∀ normalizedFreq Q : ℚ, 0 < Q → svfSafeAt normalizedFreq Q := by
  intro freq Q hQ
  have hlohi : minCutoff ≤ nyquist := by norm_num [minCutoff, nyquist]
  have h1 : minCutoff ≤ svfClampFreq freq := le_stdClamp hlohi
  have h2 : svfClampFreq freq ≤ nyquist := stdClamp_le hlohi
  have hc0 : (0 : ℝ) < ((svfClampFreq freq : ℚ) : ℝ) := by
    have : (0 : ℚ) < svfClampFreq freq :=
      lt_of_lt_of_le (by norm_num [minCutoff]) h1
    exact_mod_cast this
  have hchalf : ((svfClampFreq freq : ℚ) : ℝ) < 1/2 := by
    have h : svfClampFreq freq < 1/2 := lt_of_le_of_lt h2 (by norm_num [nyquist])
    have hR : ((svfClampFreq freq : ℚ) : ℝ) < ((1/2 : ℚ) : ℝ) := by
      exact_mod_cast h
    simpa using hR
  have hpos : 0 < Real.pi * ((svfClampFreq freq : ℚ) : ℝ) :=
    mul_pos Real.pi_pos hc0
  have hlt : Real.pi * ((svfClampFreq freq : ℚ) : ℝ) < Real.pi / 2 := by
    have := mul_lt_mul_of_pos_left hchalf Real.pi_pos
    linarith
  have htan : 0 < Real.tan (Real.pi * ((svfClampFreq freq : ℚ) : ℝ)) :=
    Real.tan_pos_of_pos_of_lt_pi_div_two hpos hlt
  have hQR : (0 : ℝ) < (Q : ℝ) := by exact_mod_cast hQ
  have hk : (0 : ℝ) < 1 / (Q : ℝ) := by positivity
  have hhp : hp2ClampFreq freq = svfClampFreq freq := rfl
  have hKpos : (0 : ℝ) < (highpass2K : ℝ) := by
    have : (0 : ℚ) < highpass2K := by norm_num [highpass2K]
    exact_mod_cast this
  refine ⟨h1, h2, hpos, hlt, htan, ⟨hQR.ne', ?_⟩, ?_, ?_⟩
  · nlinarith [htan, hk]
  · rw [hhp]
    exact htan
  · rw [hhp]
    nlinarith [htan, hKpos]

/-- Witness for the amended C7 statement at `normalizedFreq = 1/4`,
`Q = 1`. -/
theorem svf_clamped_cutoff_safe_witness :
    (0 : ℚ) < 1 ∧ svfSafeAt (1/4) 1 :=
  ⟨by norm_num, svf_clamped_cutoff_safe_for_positive_q (1/4) 1 (by norm_num)⟩

/-- C8: `ExpDecay::setTime(decayTimeInSamples)` with `sustain = false` sets
`alpha = eps ^ (1 / decayTimeInSamples)` (with `eps` the machine epsilon of
`float`, and `alpha = 1` when `sustain` holds), and
`ExpDSREnvelope::setTime(decayTimeInSamples, releaseTimeInSamples)` sets
`alphaD = eps ^ (1 / decayTimeInSamples)` and
`alphaR = eps ^ (1 / releaseTimeInSamples)`; consequently a segment of
nonzero nominal length decays by exactly `eps` over that length:
`alpha ^ t = eps`. -/
theorem expEnvelope_setTime_eps_pow :
    ∀ t r a aD aR : ℝ,
      (ExpDecay.setTimeAlpha t false a →
        a = (floatEps : ℝ) ^ ((1 : ℝ) / t)) ∧
      (ExpDecay.setTimeAlpha t true a → a = 1) ∧
      (ExpDSREnvelope.setTimeAlphas t r aD aR →
        aD = (floatEps : ℝ) ^ ((1 : ℝ) / t) ∧
          aR = (floatEps : ℝ) ^ ((1 : ℝ) / r)) ∧
      (ExpDecay.setTimeAlpha t false a → t ≠ 0 →
        a ^ t = (floatEps : ℝ)) := by
  intro t r a aD aR
  have heps : (0 : ℝ) ≤ (floatEps : ℝ) := by
    have : (0 : ℚ) ≤ floatEps := by norm_num [floatEps]
    exact_mod_cast this
  refine ⟨?_, ?_, fun h => h, ?_⟩
  · intro h
    simpa [ExpDecay.setTimeAlpha] using h
  · intro h
    simpa [ExpDecay.setTimeAlpha] using h
  · intro h ht
    have ha : a = (floatEps : ℝ) ^ ((1 : ℝ) / t) := by
      simpa [ExpDecay.setTimeAlpha] using h
    rw [ha, ← Real.rpow_mul heps, one_div_mul_cancel ht, Real.rpow_one]

/-- Witness for C8 at `decayTimeInSamples = 2`. -/
theorem expEnvelope_setTime_eps_pow_witness :
    ExpDecay.setTimeAlpha 2 false ((floatEps : ℝ) ^ ((1 : ℝ) / 2)) ∧
    (2 : ℝ) ≠ 0 ∧
    ((floatEps : ℝ) ^ ((1 : ℝ) / 2)) ^ (2 : ℝ) = (floatEps : ℝ) := by
  have hrel : ExpDecay.setTimeAlpha 2 false ((floatEps : ℝ) ^ ((1 : ℝ) / 2)) := by
    simp [ExpDecay.setTimeAlpha]
  exact ⟨hrel, by norm_num,
    (expEnvelope_setTime_eps_pow 2 2 _ 0 0).2.2.2 hrel (by norm_num)⟩
